import Mathlib

/-!
Verification of the RFM computation and clustering engine of the
customer-segmentation repository (src/python/customer_segmentation.py).

The Python pipeline is shallowly embedded:
- dates are integers (day numbers), money amounts are rationals;
- `pandas.DataFrame.round(2)` becomes `round2` on rationals;
- `pandas.cut(x, bins=5, labels=...)` (equal-width binning with the
  pandas end-point adjustments, right-closed intervals, NaN outside the
  edges) becomes `cutBin`; a NaN score would make `astype(int)` raise, so
  a row with an unassignable value makes the whole computation `none`;
- `rank(method='first')` becomes `rankOf` (ties broken by row order);
- `groupby` sorts its keys, hence `sortedKeys`;
- Python exceptions (`pd.cut` on an empty frame, `np.argmax` on an empty
  list) are modelled by `Option.none`;
- the sklearn primitives `KMeans.fit_predict` and `silhouette_score`
  used by `_find_optimal_clusters` are library calls, abstracted as a
  score function parameter; the repository's own logic (the candidate
  range and the argmax selection loop) is embedded exactly.
-/

/-- A raw transaction record: `customer_id`, `transaction_date`
(as an integer day number), `transaction_amount`. -/
structure Transaction where
  customer_id : ℕ
  transaction_date : ℤ
  transaction_amount : ℚ
deriving DecidableEq, Repr

/-- One row of the `rfm_data` frame produced by `calculate_rfm`. -/
structure RFMRow where
  customer_id : ℕ
  recency : ℤ
  frequency : ℕ
  monetary : ℚ
  r_score : ℕ
  f_score : ℕ
  m_score : ℕ
  rfm_score : ℚ
  segment : String
deriving DecidableEq, Repr

/-- The `segment_customers` cascade from `calculate_rfm` (lines 165-187):
first matching rule wins, in source order. -/
def segment_customers (r f m : ℕ) : String :=
  if 4 ≤ r ∧ 4 ≤ f ∧ 4 ≤ m then "Champions"
  else if 4 ≤ f ∧ 4 ≤ m then "Loyal Customers"
  else if 4 ≤ r ∧ 3 ≤ f then "Potential Loyalists"
  else if 4 ≤ r ∧ f ≤ 2 then "New Customers"
  else if 3 ≤ r ∧ 2 ≤ f ∧ 2 ≤ m then "Promising"
  else if 3 ≤ r ∧ 3 ≤ f then "Need Attention"
  else if r = 2 ∧ 2 ≤ f ∧ 2 ≤ m then "About to Sleep"
  else if 4 ≤ m ∧ r ≤ 2 then "At Risk"
  else if 4 ≤ m ∧ r = 1 then "Cannot Lose Them"
  else if r ≤ 2 ∧ 2 ≤ f then "Hibernating"
  else "Lost"

/-- Rounding to two decimal places, the `.round(2)` applied to the
aggregated metric frame.  (numpy rounds half to even; no theorem below
depends on the behaviour at an exact half-tie.) -/
def round2 (q : ℚ) : ℚ := (round (q * 100) : ℤ) / 100

/-- Maximum of a list of integers (used for the per-group and global
date maxima; the `0` default is never reached on nonempty input). -/
def maxZ : List ℤ → ℤ
  | [] => 0
  | x :: xs => xs.foldl max x

/-- Minimum of a rational column, as `np.nanmin` on nonempty data. -/
def minQ : List ℚ → ℚ
  | [] => 0
  | x :: xs => xs.foldl min x

/-- Maximum of a rational column, as `np.nanmax` on nonempty data. -/
def maxQ : List ℚ → ℚ
  | [] => 0
  | x :: xs => xs.foldl max x

/-- Edge `i` (0..5) of the five equal-width bins `pandas.cut` builds over
`[mn, mx]`: `linspace(mn, mx, 6)`, with the degenerate `mn = mx` case
widened by 0.1% on both sides, and otherwise the leftmost edge lowered
by 0.1% of the range so the minimum falls inside the first bin. -/
def binEdge (mn mx : ℚ) (i : ℕ) : ℚ :=
  if mn = mx then
    let lo := mn - (if mn = 0 then 1 / 1000 else |mn| / 1000)
    let hi := mx + (if mx = 0 then 1 / 1000 else |mx| / 1000)
    lo + i * (hi - lo) / 5
  else if i = 0 then mn - (mx - mn) / 1000
  else mn + i * (mx - mn) / 5

/-- Bin number (1..5) assigned by `pandas.cut` to value `v` for the bins
over `[mn, mx]`: bins are right-closed, `none` models the NaN assigned
to a value outside `(edge 0, edge 5]`. -/
def cutBin (mn mx v : ℚ) : Option ℕ :=
  if v ≤ binEdge mn mx 0 then none
  else [1, 2, 3, 4, 5].find? (fun i => decide (v ≤ binEdge mn mx i))

/-- The transactions of customer `c`: one `groupby('customer_id')`
group. -/
def custTxns (ts : List Transaction) (c : ℕ) : List Transaction :=
  ts.filter (fun t => t.customer_id == c)

/-- The distinct customer ids in ascending order: the index of the
frame produced by `groupby` (pandas sorts group keys). -/
def sortedKeys (ts : List Transaction) : List ℕ :=
  List.insertionSort (· ≤ ·) (ts.map Transaction.customer_id).dedup

/-- The `Recency` entry of customer `c`, as a rational:
`(analysis_date - group max date).days`. -/
def recQ (ts : List Transaction) (ad : ℤ) (c : ℕ) : ℚ :=
  ((ad - maxZ ((custTxns ts c).map Transaction.transaction_date) : ℤ) : ℚ)

/-- The `Frequency` entry of customer `c`: the group row count. -/
def freqQ (ts : List Transaction) (c : ℕ) : ℚ :=
  ((custTxns ts c).length : ℚ)

/-- The `Monetary` entry of customer `c`: the group amount sum, rounded
to two decimals by the frame-wide `.round(2)`. -/
def monQ (ts : List Transaction) (c : ℕ) : ℚ :=
  round2 (((custTxns ts c).map Transaction.transaction_amount).sum)

/-- `rank(method='first')` of the column `keys.map f`, at the row of
key `c`: one plus the number of strictly smaller entries plus the
number of equal entries in earlier rows. -/
def rankOf (keys : List ℕ) (f : ℕ → ℚ) (c : ℕ) : ℚ :=
  (((keys.filter (fun d => decide (f d < f c))).length
    + ((keys.take (keys.indexOf c)).filter (fun d => decide (f d = f c))).length
    + 1 : ℕ) : ℚ)

/-- Sequence a list of optional results: `none` as soon as one entry is
`none` (an unassignable bin makes `astype(int)` raise, aborting the
whole computation). -/
def traverseOpt (f : α → Option β) : List α → Option (List β)
  | [] => some []
  | a :: l =>
    match f a, traverseOpt f l with
    | some b, some bs => some (b :: bs)
    | _, _ => none

/-- The scored row of customer `c`: the three `pd.cut` scores
(`R_Score` with inverted labels `[5,4,3,2,1]`, `F_Score`/`M_Score` on
the rank columns with labels `[1,2,3,4,5]`), `RFM_Score`, and the
`segment_customers` label. -/
def rowOf (ts : List Transaction) (ad : ℤ) (c : ℕ) : Option RFMRow :=
  let keys := sortedKeys ts
  let recCol := keys.map (recQ ts ad)
  let fRank := rankOf keys (freqQ ts)
  let mRank := rankOf keys (monQ ts)
  let fRankCol := keys.map fRank
  let mRankCol := keys.map mRank
  match cutBin (minQ recCol) (maxQ recCol) (recQ ts ad c),
        cutBin (minQ fRankCol) (maxQ fRankCol) (fRank c),
        cutBin (minQ mRankCol) (maxQ mRankCol) (mRank c) with
  | some rb, some fs, some ms =>
      some { customer_id := c
             recency := ad - maxZ ((custTxns ts c).map Transaction.transaction_date)
             frequency := (custTxns ts c).length
             monetary := monQ ts c
             r_score := 6 - rb
             f_score := fs
             m_score := ms
             rfm_score := (((6 - rb) + fs + ms : ℕ) : ℚ) / 3
             segment := segment_customers (6 - rb) fs ms }
  | _, _, _ => none

/-- The `calculate_rfm` pipeline stage: one scored row per distinct
customer id, `none` on an empty transaction set (where the code raises
inside `pd.cut`).  `analysis_date` defaults to the maximum transaction
date in the data. -/
def calculate_rfm (ts : List Transaction) (analysis_date : Option ℤ) :
    Option (List RFMRow) :=
  match ts with
  | [] => none
  | _ :: _ =>
      let ad := analysis_date.getD (maxZ (ts.map Transaction.transaction_date))
      traverseOpt (rowOf ts ad) (sortedKeys ts)

/-- One row of the `rfm_segment_summary` frame of `analyze_segments`. -/
structure SegmentSummary where
  segment : String
  count : ℕ
  recencyMean : ℚ
  frequencyMean : ℚ
  monetaryMean : ℚ
  rfmScoreMean : ℚ
  percentage : ℚ
deriving DecidableEq, Repr

/-- Descending order on the (rounded) per-segment mean monetary value:
the key of the final `sort_values('Monetary', ascending=False)`. -/
def byMonetaryDesc (a b : SegmentSummary) : Prop :=
  b.monetaryMean ≤ a.monetaryMean

instance : DecidableRel byMonetaryDesc :=
  fun a b => inferInstanceAs (Decidable (b.monetaryMean ≤ a.monetaryMean))

instance : IsTotal SegmentSummary byMonetaryDesc :=
  ⟨fun a b => (le_total a.monetaryMean b.monetaryMean).symm⟩

instance : IsTrans SegmentSummary byMonetaryDesc :=
  ⟨fun _ _ _ hab hbc => le_trans hbc hab⟩

/-- The `analyze_segments` stage restricted to the RFM segment summary:
group the rows by segment label (pandas sorts the group keys), take the
count and the rounded means, add the percentage of the population, and
sort by the `Monetary` column (the per-segment mean) descending. -/
def analyze_segments (rfm : List RFMRow) : List SegmentSummary :=
  let labels := List.insertionSort (· ≤ ·) (rfm.map RFMRow.segment).dedup
  let summaries := labels.map fun s =>
    let members := rfm.filter (fun row => row.segment == s)
    let c : ℕ := members.length
    { segment := s
      count := c
      recencyMean := round2 ((members.map (fun r => (r.recency : ℚ))).sum / c)
      frequencyMean := round2 ((members.map (fun r => (r.frequency : ℚ))).sum / c)
      monetaryMean := round2 ((members.map RFMRow.monetary).sum / c)
      rfmScoreMean := round2 ((members.map RFMRow.rfm_score).sum / c)
      percentage := round2 ((c : ℚ) / rfm.length * 100) }
  List.insertionSort byMonetaryDesc summaries

/-- Total monetary value of the members of segment `s` (a quantity the
code never computes; used to state what sorting by revenue would be). -/
def segmentTotalMonetary (rfm : List RFMRow) (s : String) : ℚ :=
  ((rfm.filter (fun row => row.segment == s)).map RFMRow.monetary).sum

/-- One entry of the `generate_marketing_recommendations` dictionary. -/
structure Recommendation where
  description : String
  strategy : String
  actions : List String
deriving DecidableEq, Repr

/-- The literal dictionary returned by
`generate_marketing_recommendations` (the key order of the source). -/
def generate_marketing_recommendations : List (String × Recommendation) :=
  [("Champions",
    { description := "Best customers with high RFM scores"
      strategy := "VIP treatment, exclusive offers, loyalty rewards"
      actions := ["Premium customer service", "Early access to new products",
                  "Personalized offers", "Loyalty program benefits"] }),
   ("Loyal Customers",
    { description := "High frequency and monetary value customers"
      strategy := "Upsell premium products, cross-sell, loyalty program"
      actions := ["Product recommendations", "Cross-selling campaigns",
                  "Loyalty point bonuses", "Premium upgrades"] }),
   ("Potential Loyalists",
    { description := "Recent customers with good frequency"
      strategy := "Membership offers, engagement campaigns"
      actions := ["Engagement sequences", "Product education",
                  "Membership invitations", "Social proof"] }),
   ("New Customers",
    { description := "Recent but low frequency customers"
      strategy := "Onboarding sequence, welcome offers"
      actions := ["Welcome series", "Onboarding tutorials",
                  "First purchase incentives", "Product discovery"] }),
   ("At Risk",
    { description := "High value but declining engagement"
      strategy := "Win-back campaigns, special offers"
      actions := ["Reactivation campaigns", "Exclusive discounts",
                  "Personal outreach", "Feedback surveys"] }),
   ("Cannot Lose Them",
    { description := "Highest value customers at risk of churning"
      strategy := "Immediate intervention, premium support"
      actions := ["Personal account manager", "Exclusive previews",
                  "Special retention offers", "Direct communication"] }),
   ("Hibernating",
    { description := "Previously active, now dormant"
      strategy := "Win-back series, incentive offers"
      actions := ["Re-engagement campaigns", "Comeback offers",
                  "Product updates", "Limited-time promotions"] }),
   ("Lost",
    { description := "Lowest RFM scores, likely churned"
      strategy := "Basic promotional offers, surveys"
      actions := ["Exit surveys", "Basic promotional emails",
                  "Win-back attempts", "Competitive analysis"] })]

/-- Dictionary lookup in the recommendations mapping. -/
def recLookup (s : String) : Option Recommendation :=
  (generate_marketing_recommendations.find? (fun p => p.1 == s)).map Prod.snd

/-- The `_find_optimal_clusters` candidate range
`range(2, min(max_clusters + 1, len(data)))`. -/
def kRange (n maxClusters : ℕ) : List ℕ :=
  List.range' 2 (min (maxClusters + 1) n - 2)

/-- The `_find_optimal_clusters` selection loop: evaluate the abstract
silhouette score of each candidate `k` and keep the first maximiser
(`np.argmax` returns the first index of the maximum); `none` models the
`np.argmax` exception on an empty candidate list. -/
def pickBetter (score : ℕ → ℚ) (best : Option ℕ) (k : ℕ) : Option ℕ :=
  match best with
  | none => some k
  | some b => if score b < score k then some k else some b

/-- The `_find_optimal_clusters` loop as a fold of `pickBetter` over the
candidate range. -/
def find_optimal_clusters (score : ℕ → ℚ) (n maxClusters : ℕ) : Option ℕ :=
  (kRange n maxClusters).foldl (pickBetter score) none

/-- The eleven segment labels of §4.3, in rule order. -/
def elevenLabels : List String :=
  ["Champions", "Loyal Customers", "Potential Loyalists", "New Customers",
   "Promising", "Need Attention", "About to Sleep", "At Risk",
   "Cannot Lose Them", "Hibernating", "Lost"]

/-- Modelled from the spec: the §4.3 rule table as an ordered list of
(predicate, label) pairs, transcribed from the spec's words, to be
compared with the source-derived `segment_customers`. -/
def specRules : List ((ℕ × ℕ × ℕ → Bool) × String) :=
  [(fun x => 4 ≤ x.1 && 4 ≤ x.2.1 && 4 ≤ x.2.2, "Champions"),
   (fun x => 4 ≤ x.2.1 && 4 ≤ x.2.2, "Loyal Customers"),
   (fun x => 4 ≤ x.1 && 3 ≤ x.2.1, "Potential Loyalists"),
   (fun x => 4 ≤ x.1 && x.2.1 ≤ 2, "New Customers"),
   (fun x => 3 ≤ x.1 && 2 ≤ x.2.1 && 2 ≤ x.2.2, "Promising"),
   (fun x => 3 ≤ x.1 && 3 ≤ x.2.1, "Need Attention"),
   (fun x => x.1 == 2 && 2 ≤ x.2.1 && 2 ≤ x.2.2, "About to Sleep"),
   (fun x => 4 ≤ x.2.2 && x.1 ≤ 2, "At Risk"),
   (fun x => 4 ≤ x.2.2 && x.1 == 1, "Cannot Lose Them"),
   (fun x => x.1 ≤ 2 && 2 ≤ x.2.1, "Hibernating")]

/-- Modelled from the spec: first-match evaluation of the §4.3 rule
table, with the catch-all label `Lost`. -/
def firstMatchLabel (x : ℕ × ℕ × ℕ) : String :=
  ((specRules.find? (fun p => p.1 x)).map Prod.snd).getD "Lost"

/-! ### Concrete data used by the scenario theorems -/

/-- A segmented table in which the first-sorted segment does not have
the largest total monetary value: one high-mean single customer versus
three moderate customers whose segment total is larger. -/
def segTableData : List RFMRow :=
  [⟨1, 1, 5, 100, 5, 5, 5, 5, "Champions"⟩,
   ⟨2, 50, 1, 60, 1, 1, 1, 1, "Lost"⟩,
   ⟨3, 50, 1, 60, 1, 1, 1, 1, "Lost"⟩,
   ⟨4, 50, 1, 60, 1, 1, 1, 1, "Lost"⟩]

/-- The default `analysis_date`: the maximum transaction date in the
data. -/
def analysisDefault (ts : List Transaction) : ℤ :=
  maxZ (ts.map Transaction.transaction_date)

/-- A single transaction with a positive amount so small that the
`.round(2)` of the aggregation rounds the monetary sum to zero. -/
def tinyAmountData : List Transaction := [⟨1, 0, 1 / 250⟩]

/-- A small transaction set (two customers, all amounts at least one
cent) used to witness the Metric Calculator theorem. -/
def threeTxnData : List Transaction :=
  [⟨1, 10, 5⟩, ⟨1, 12, 7 / 2⟩, ⟨2, 11, 2⟩]

/-- A transaction set with exactly 4 distinct customers (customer 2 has
two transactions). -/
def fourCustomerData : List Transaction :=
  [⟨1, 100, 10⟩, ⟨2, 90, 20⟩, ⟨2, 95, 20⟩, ⟨3, 80, 30⟩, ⟨4, 60, 40⟩]

/-! ### Rule Classifier -/

/-- C1 counterexample: a customer with r_score=1, f_score=1, m_score=5
is not classified `Cannot Lose Them` by the code. -/
theorem segment_customers_1_1_5_not_cannot_lose :
    segment_customers 1 1 5 ≠ "Cannot Lose Them" := by decide

/-- C1 amended: a customer with r_score=1, f_score=1, m_score=5 is
classified `At Risk` (rule 8 fires before rule 9 ever gets tested). -/
theorem segment_customers_1_1_5_at_risk :
    segment_customers 1 1 5 = "At Risk" := by decide

/-- C2: for every triple of scores in {1..5}³ the Rule Classifier never
returns `Cannot Lose Them`: rule 9 is shadowed by rule 8 under
first-match evaluation. -/
theorem segment_customers_never_cannot_lose_them :
    ∀ r ∈ Finset.Icc (1 : ℕ) 5, ∀ f ∈ Finset.Icc (1 : ℕ) 5,
      ∀ m ∈ Finset.Icc (1 : ℕ) 5,
        segment_customers r f m ≠ "Cannot Lose Them" := by decide

/-- C2 witness: the shadowing at the concrete triple (1, 2, 4). -/
theorem segment_customers_never_cannot_lose_them_witness :
    segment_customers 1 2 4 ≠ "Cannot Lose Them" :=
  segment_customers_never_cannot_lose_them 1 (by decide) 2 (by decide) 4
    (by decide)

/-- C3: on {1..5}³ the Rule Classifier agrees with first-match
evaluation of the §4.3 rule table in its fixed priority order, always
lands in the eleven fixed labels, and classifies (5,5,5) as
`Champions`.  (It is a Lean function, hence total and deterministic on
this domain.) -/
theorem segment_customers_total_first_match :
    (∀ r ∈ Finset.Icc (1 : ℕ) 5, ∀ f ∈ Finset.Icc (1 : ℕ) 5,
       ∀ m ∈ Finset.Icc (1 : ℕ) 5,
         segment_customers r f m = firstMatchLabel (r, f, m) ∧
         segment_customers r f m ∈ elevenLabels) ∧
    segment_customers 5 5 5 = "Champions" := by decide

/-- C3 witness: the first-match agreement at the concrete triple
(3, 2, 2) together with the `Champions` scenario. -/
theorem segment_customers_total_first_match_witness :
    segment_customers 3 2 2 = firstMatchLabel (3, 2, 2) ∧
    segment_customers 5 5 5 = "Champions" :=
  ⟨(segment_customers_total_first_match.1 3 (by decide) 2 (by decide) 2
      (by decide)).1,
   segment_customers_total_first_match.2⟩

/-! ### Metric Calculator and Score Binner scenarios -/

/-- C6: on an empty transaction set `calculate_rfm` fails (the code
raises inside `pd.cut`; the failure is modelled as `none`), for any
`analysis_date` argument. -/
theorem calculate_rfm_empty (analysis_date : Option ℤ) :
    calculate_rfm [] analysis_date = none := rfl

/-- C6 witness: the failure at the concrete analysis date 42. -/
theorem calculate_rfm_empty_witness :
    calculate_rfm [] (some 42) = none := calculate_rfm_empty (some 42)

/-- C4 counterexample: on a population of exactly 4 distinct customers
the Score Binner does not fail — `calculate_rfm` returns a result. -/
theorem score_binner_four_customers_succeeds :
    (fourCustomerData.map Transaction.customer_id).dedup.length = 4 ∧
    (calculate_rfm fourCustomerData none).isSome = true := by
  with_unfolding_all decide

/-- C4 amended: on that 4-customer population every produced
r/f/m score lies in {1..5} — scores are produced, no error is
raised (the code has no small-population guard). -/
theorem score_binner_four_customers_scores_in_range :
    (calculate_rfm fourCustomerData none).map
      (fun rows => rows.all fun row =>
        decide (1 ≤ row.r_score ∧ row.r_score ≤ 5 ∧
                1 ≤ row.f_score ∧ row.f_score ≤ 5 ∧
                1 ≤ row.m_score ∧ row.m_score ≤ 5)) = some true := by
  with_unfolding_all decide

/-! ### Marketing recommendations -/

/-- C10: the recommendations dictionary has exactly 8 entries, every
key is one of the eleven §4.3 labels, no entry exists for `Promising`,
`Need Attention` or `About to Sleep`, and each of those three labels is
producible by the Rule Classifier. -/
theorem generate_marketing_recommendations_coverage :
    generate_marketing_recommendations.length = 8 ∧
    (∀ p ∈ generate_marketing_recommendations, p.1 ∈ elevenLabels) ∧
    recLookup "Promising" = none ∧
    recLookup "Need Attention" = none ∧
    recLookup "About to Sleep" = none ∧
    segment_customers 3 2 2 = "Promising" ∧
    segment_customers 3 3 1 = "Need Attention" ∧
    segment_customers 2 2 2 = "About to Sleep" := by decide

/-! ### Cluster Selector -/

/-- Folding `pickBetter` from a seeded best candidate returns a
candidate whose score bounds the seed's and every listed candidate's
score, and `np.argmax`-style keeps the first maximiser. -/
theorem pickBetter_foldl (score : ℕ → ℚ) :
    ∀ (l : List ℕ) (b : ℕ),
      ∃ r, l.foldl (pickBetter score) (some b) = some r ∧
        (r = b ∨ r ∈ l) ∧ score b ≤ score r ∧ ∀ k ∈ l, score k ≤ score r := by
  intro l
  induction l with
  | nil => exact fun b => ⟨b, rfl, Or.inl rfl, le_refl _, by simp⟩
  | cons a l ih =>
    intro b
    by_cases h : score b < score a
    · obtain ⟨r, hr, hmem, hle, hall⟩ := ih a
      refine ⟨r, ?_, ?_, le_trans h.le hle, ?_⟩
      · simpa [pickBetter, h] using hr
      · rcases hmem with hmem | hmem
        · exact Or.inr (hmem ▸ List.mem_cons_self a l)
        · exact Or.inr (List.mem_cons_of_mem a hmem)
      · intro k hk
        rcases List.mem_cons.mp hk with hk | hk
        · exact hk ▸ hle
        · exact hall k hk
    · obtain ⟨r, hr, hmem, hle, hall⟩ := ih b
      refine ⟨r, ?_, ?_, hle, ?_⟩
      · simpa [pickBetter, h] using hr
      · rcases hmem with hmem | hmem
        · exact Or.inl hmem
        · exact Or.inr (List.mem_cons_of_mem a hmem)
      · intro k hk
        rcases List.mem_cons.mp hk with hk | hk
        · exact hk ▸ le_trans (not_lt.mp h) hle
        · exact hall k hk

/-- C5: with a population of fewer than 3 rows the candidate range
`range(2, min(11, n))` is empty and `_find_optimal_clusters` fails
(the `np.argmax` of the empty score list, modelled as `none`) instead
of selecting a cluster count. -/
theorem find_optimal_clusters_insufficient (score : ℕ → ℚ) (n : ℕ)
    (h : n < 3) : find_optimal_clusters score n 10 = none := by
  have hk : kRange n 10 = [] := by
    have : min (10 + 1) n - 2 = 0 := by omega
    simp [kRange, this]
  simp [find_optimal_clusters, hk]

/-- C5 witness: the failure at the concrete population size 2. -/
theorem find_optimal_clusters_insufficient_witness :
    find_optimal_clusters (fun _ => 0) 2 10 = none :=
  find_optimal_clusters_insufficient (fun _ => 0) 2 (by decide)

/-- C8: with the default `max_clusters = 10` and a population of at
least 3 rows, the candidate range is exactly `2..min(10, n - 1)`, the
selector returns a candidate from that range, and its silhouette score
is at least the score of every candidate in the range. -/
theorem find_optimal_clusters_maximizes (score : ℕ → ℚ) (n : ℕ)
    (h : 3 ≤ n) :
    (∀ k, k ∈ kRange n 10 ↔ 2 ≤ k ∧ k ≤ min 10 (n - 1)) ∧
    ∃ kstar, find_optimal_clusters score n 10 = some kstar ∧
      kstar ∈ kRange n 10 ∧ ∀ k ∈ kRange n 10, score k ≤ score kstar := by
  have hrange : ∀ k, k ∈ kRange n 10 ↔ 2 ≤ k ∧ k ≤ min 10 (n - 1) := by
    intro k
    simp only [kRange, List.mem_range']
    constructor
    · rintro ⟨i, hi, rfl⟩; omega
    · intro hk; exact ⟨k - 2, by omega, by omega⟩
  refine ⟨hrange, ?_⟩
  have hsplit : kRange n 10 = 2 :: List.range' 3 (min (10 + 1) n - 3) := by
    have h2 : min (10 + 1) n - 2 = (min (10 + 1) n - 3) + 1 := by omega
    rw [kRange, h2, List.range'_succ]
  obtain ⟨r, hr, hmem, hle, hall⟩ :=
    pickBetter_foldl score (List.range' 3 (min (10 + 1) n - 3)) 2
  refine ⟨r, ?_, ?_, ?_⟩
  · rw [find_optimal_clusters, hsplit]
    simpa [pickBetter] using hr
  · rw [hsplit]
    rcases hmem with hmem | hmem
    · exact hmem ▸ List.mem_cons_self _ _
    · exact List.mem_cons_of_mem _ hmem
  · intro k hk
    rw [hsplit] at hk
    rcases List.mem_cons.mp hk with hk | hk
    · exact hk ▸ hle
    · exact hall k hk

/-- C8 witness: the selection at the concrete population size 5 with
score function `k ↦ k`: the range is `2..4` and the selector picks a
maximiser. -/
theorem find_optimal_clusters_maximizes_witness :
    (∀ k, k ∈ kRange 5 10 ↔ 2 ≤ k ∧ k ≤ min 10 (5 - 1)) ∧
    ∃ kstar, find_optimal_clusters (fun k => (k : ℚ)) 5 10 = some kstar ∧
      kstar ∈ kRange 5 10 ∧
      ∀ k ∈ kRange 5 10, (k : ℚ) ≤ (kstar : ℚ) :=
  find_optimal_clusters_maximizes (fun k => (k : ℚ)) 5 (by decide)

/-! ### Segment Aggregator -/

/-- C9 counterexample: `analyze_segments` puts `Champions` (mean 100,
total 100) before `Lost` (mean 60, total 180), so the summary is not
sorted by descending total monetary value. -/
theorem analyze_segments_not_sorted_by_total :
    (analyze_segments segTableData).map SegmentSummary.segment
        = ["Champions", "Lost"] ∧
    segmentTotalMonetary segTableData "Champions"
        < segmentTotalMonetary segTableData "Lost" := by
  with_unfolding_all decide

/-- C9 amended: the summary returned by `analyze_segments` is sorted in
descending order of the per-segment mean monetary value (the `Monetary`
column of the aggregated frame), not of the total. -/
theorem analyze_segments_sorted_by_mean (rfm : List RFMRow) :
    List.Sorted byMonetaryDesc (analyze_segments rfm) :=
  List.sorted_insertionSort byMonetaryDesc _

/-- C9 witness: the sortedness on the concrete table above. -/
theorem analyze_segments_sorted_by_mean_witness :
    List.Sorted byMonetaryDesc (analyze_segments segTableData) :=
  analyze_segments_sorted_by_mean segTableData

/-! ### Metric Calculator: general correctness -/

theorem foldl_max_le_init {α : Type} [LinearOrder α] :
    ∀ (l : List α) (a : α), a ≤ l.foldl max a := by
  intro l
  induction l with
  | nil => exact fun a => le_refl a
  | cons x xs ih => exact fun a => le_trans (le_max_left a x) (ih (max a x))

theorem le_foldl_max_of_mem {α : Type} [LinearOrder α] :
    ∀ (l : List α) (a b : α), b ∈ l → b ≤ l.foldl max a := by
  intro l
  induction l with
  | nil => intro a b hb; exact absurd hb (List.not_mem_nil b)
  | cons x xs ih =>
    intro a b hb
    simp only [List.foldl_cons]
    rcases List.mem_cons.mp hb with hb | hb
    · rw [hb]
      exact le_trans (le_max_right a x) (foldl_max_le_init xs (max a x))
    · exact ih (max a x) b hb

theorem foldl_max_mem {α : Type} [LinearOrder α] :
    ∀ (l : List α) (a : α), l.foldl max a = a ∨ l.foldl max a ∈ l := by
  intro l
  induction l with
  | nil => exact fun a => Or.inl rfl
  | cons x xs ih =>
    intro a
    rcases ih (max a x) with h | h
    · rcases max_choice a x with hm | hm
      · exact Or.inl (by rw [List.foldl_cons, h, hm])
      · exact Or.inr (by rw [List.foldl_cons, h, hm]; exact List.mem_cons_self x xs)
    · exact Or.inr (List.mem_cons_of_mem x h)

theorem foldl_min_le_init {α : Type} [LinearOrder α] :
    ∀ (l : List α) (a : α), l.foldl min a ≤ a := by
  intro l
  induction l with
  | nil => exact fun a => le_refl a
  | cons x xs ih => exact fun a => le_trans (ih (min a x)) (min_le_left a x)

theorem foldl_min_le_of_mem {α : Type} [LinearOrder α] :
    ∀ (l : List α) (a b : α), b ∈ l → l.foldl min a ≤ b := by
  intro l
  induction l with
  | nil => intro a b hb; exact absurd hb (List.not_mem_nil b)
  | cons x xs ih =>
    intro a b hb
    simp only [List.foldl_cons]
    rcases List.mem_cons.mp hb with hb | hb
    · rw [hb]
      exact le_trans (foldl_min_le_init xs (min a x)) (min_le_right a x)
    · exact ih (min a x) b hb

theorem le_maxZ (l : List ℤ) (b : ℤ) (h : b ∈ l) : b ≤ maxZ l := by
  cases l with
  | nil => exact absurd h (List.not_mem_nil b)
  | cons x xs =>
    rcases List.mem_cons.mp h with h | h
    · exact h ▸ foldl_max_le_init xs x
    · exact le_foldl_max_of_mem xs x b h

theorem maxZ_mem (l : List ℤ) (h : l ≠ []) : maxZ l ∈ l := by
  cases l with
  | nil => exact absurd rfl h
  | cons x xs =>
    have hdef : maxZ (x :: xs) = xs.foldl max x := rfl
    rcases foldl_max_mem xs x with h1 | h1
    · rw [hdef, h1]
      exact List.mem_cons_self x xs
    · rw [hdef]
      exact List.mem_cons_of_mem x h1

theorem minQ_le (l : List ℚ) (v : ℚ) (h : v ∈ l) : minQ l ≤ v := by
  cases l with
  | nil => exact absurd h (List.not_mem_nil v)
  | cons x xs =>
    rcases List.mem_cons.mp h with h | h
    · rw [h]
      exact foldl_min_le_init xs x
    · exact foldl_min_le_of_mem xs x v h

theorem le_maxQ (l : List ℚ) (v : ℚ) (h : v ∈ l) : v ≤ maxQ l := by
  cases l with
  | nil => exact absurd h (List.not_mem_nil v)
  | cons x xs =>
    rcases List.mem_cons.mp h with h | h
    · exact h ▸ foldl_max_le_init xs x
    · exact le_foldl_max_of_mem xs x v h

theorem round2_nonneg (q : ℚ) (h : 0 ≤ q) : 0 ≤ round2 q := by
  have h1 : (0 : ℤ) ≤ round (q * 100) := by
    rw [round_eq]
    exact Int.floor_nonneg.mpr (by linarith)
  have h2 : (0 : ℚ) ≤ ((round (q * 100) : ℤ) : ℚ) := by exact_mod_cast h1
  rw [round2]
  positivity

theorem round2_ge_hundredth (q : ℚ) (h : 1 / 100 ≤ q) : 1 / 100 ≤ round2 q := by
  have h1 : (1 : ℤ) ≤ round (q * 100) := by
    rw [round_eq]
    refine Int.le_floor.mpr ?_
    push_cast
    linarith
  have h2 : (1 : ℚ) ≤ ((round (q * 100) : ℤ) : ℚ) := by exact_mod_cast h1
  rw [round2]
  linarith

theorem round2_pos (q : ℚ) (h : 1 / 100 ≤ q) : 0 < round2 q :=
  lt_of_lt_of_le (by norm_num) (round2_ge_hundredth q h)

theorem eps_pos (z : ℚ) : 0 < (if z = 0 then 1 / 1000 else |z| / 1000 : ℚ) := by
  by_cases hz : z = 0
  · rw [if_pos hz]; norm_num
  · rw [if_neg hz]
    exact div_pos (abs_pos.mpr hz) (by norm_num)

/-- A value lying between the column minimum and maximum always
receives a bin in 1..5 from `pandas.cut` (the lowered leftmost edge
keeps the minimum inside the first bin). -/
theorem cutBin_assigned (mn mx v : ℚ) (h1 : mn ≤ v) (h2 : v ≤ mx) :
    ∃ i, cutBin mn mx v = some i ∧ 1 ≤ i ∧ i ≤ 5 := by
  have hmnmx : mn ≤ mx := le_trans h1 h2
  have hedge0 : binEdge mn mx 0 < v := by
    by_cases hc : mn = mx
    · have hv : v = mn := le_antisymm (by rw [hc]; exact h2) h1
      have hE : binEdge mn mx 0
          = mn - (if mn = 0 then 1 / 1000 else |mn| / 1000) := by
        simp only [binEdge, if_pos hc]
        push_cast
        ring
      rw [hE, hv]
      linarith [eps_pos mn]
    · have hlt : mn < mx := lt_of_le_of_ne hmnmx hc
      have hE : binEdge mn mx 0 = mn - (mx - mn) / 1000 := by
        simp [binEdge, hc]
      rw [hE]
      have : 0 < (mx - mn) / 1000 := div_pos (by linarith) (by norm_num)
      linarith
  have hedge5 : v ≤ binEdge mn mx 5 := by
    by_cases hc : mn = mx
    · have hv : v = mn := le_antisymm (by rw [hc]; exact h2) h1
      have hE : binEdge mn mx 5
          = mx + (if mx = 0 then 1 / 1000 else |mx| / 1000) := by
        simp only [binEdge, if_pos hc]
        push_cast
        ring
      rw [hE, hv, hc]
      linarith [eps_pos mx]
    · have hE : binEdge mn mx 5 = mx := by
        simp only [binEdge, if_neg hc, if_neg (by decide : ¬(5 : ℕ) = 0)]
        push_cast
        ring
      rw [hE]
      exact h2
  have hfind : ∃ i, [1, 2, 3, 4, 5].find?
      (fun i => decide (v ≤ binEdge mn mx i)) = some i := by
    refine Option.isSome_iff_exists.mp ?_
    rw [List.find?_isSome]
    exact ⟨5, by simp, by simpa using hedge5⟩
  obtain ⟨i, hi⟩ := hfind
  refine ⟨i, ?_, ?_⟩
  · simp only [cutBin, if_neg (not_le.mpr hedge0)]
    exact hi
  · have hmem := List.mem_of_find?_eq_some hi
    simp at hmem
    omega

theorem traverseOpt_isSome_of_forall {α β : Type} {f : α → Option β} :
    ∀ (l : List α), (∀ a ∈ l, (f a).isSome) → ∃ bs, traverseOpt f l = some bs := by
  intro l
  induction l with
  | nil => exact fun _ => ⟨[], rfl⟩
  | cons a l ih =>
    intro h
    obtain ⟨b, hb⟩ := Option.isSome_iff_exists.mp (h a (List.mem_cons_self a l))
    obtain ⟨bs, hbs⟩ := ih (fun x hx => h x (List.mem_cons_of_mem a hx))
    exact ⟨b :: bs, by simp only [traverseOpt]; rw [hb, hbs]⟩

theorem traverseOpt_some_forall₂ {α β : Type} {f : α → Option β} :
    ∀ (l : List α) (bs : List β), traverseOpt f l = some bs →
      List.Forall₂ (fun a b => f a = some b) l bs := by
  intro l
  induction l with
  | nil =>
    intro bs h
    simp only [traverseOpt] at h
    injection h with h
    rw [← h]
    exact List.Forall₂.nil
  | cons a l ih =>
    intro bs h
    simp only [traverseOpt] at h
    rcases hfa : f a with _ | b
    · rw [hfa] at h
      exact Option.noConfusion h
    · rcases htl : traverseOpt f l with _ | bs'
      · rw [hfa, htl] at h
        exact Option.noConfusion h
      · rw [hfa, htl] at h
        injection h with h
        rw [← h]
        exact List.Forall₂.cons hfa (ih bs' htl)

theorem forall₂_mem_right {α β : Type} {R : α → β → Prop} {b : β} :
    ∀ {l : List α} {bs : List β}, List.Forall₂ R l bs → b ∈ bs →
      ∃ a ∈ l, R a b := by
  intro l bs h
  induction h with
  | nil => intro hb; exact absurd hb (List.not_mem_nil b)
  | cons hab htl ihh =>
    intro hb
    rcases List.mem_cons.mp hb with hb | hb
    · subst hb
      exact ⟨_, List.mem_cons_self _ _, hab⟩
    · obtain ⟨a, ha, hr⟩ := ihh hb
      exact ⟨a, List.mem_cons_of_mem _ ha, hr⟩

theorem forall₂_map_right_eq {α β : Type} {R : α → β → Prop} (g : β → α)
    (hg : ∀ a b, R a b → g b = a) :
    ∀ {l : List α} {bs : List β}, List.Forall₂ R l bs → bs.map g = l := by
  intro l bs h
  induction h with
  | nil => rfl
  | cons hab htl ihh => simp [List.map_cons, hg _ _ hab, ihh]

theorem sortedKeys_nodup (ts : List Transaction) : (sortedKeys ts).Nodup :=
  (List.perm_insertionSort _ _).nodup_iff.mpr (List.nodup_dedup _)

theorem mem_sortedKeys (ts : List Transaction) (c : ℕ) :
    c ∈ sortedKeys ts ↔ c ∈ ts.map Transaction.customer_id :=
  ((List.perm_insertionSort _ _).mem_iff).trans List.mem_dedup

theorem rowOf_isSome (ts : List Transaction) (ad : ℤ) (c : ℕ)
    (hc : c ∈ sortedKeys ts) : (rowOf ts ad c).isSome = true := by
  obtain ⟨i1, e1, -, -⟩ := cutBin_assigned
    (minQ ((sortedKeys ts).map (recQ ts ad)))
    (maxQ ((sortedKeys ts).map (recQ ts ad))) (recQ ts ad c)
    (minQ_le _ _ (List.mem_map_of_mem _ hc))
    (le_maxQ _ _ (List.mem_map_of_mem _ hc))
  obtain ⟨i2, e2, -, -⟩ := cutBin_assigned
    (minQ ((sortedKeys ts).map (rankOf (sortedKeys ts) (freqQ ts))))
    (maxQ ((sortedKeys ts).map (rankOf (sortedKeys ts) (freqQ ts))))
    (rankOf (sortedKeys ts) (freqQ ts) c)
    (minQ_le _ _ (List.mem_map_of_mem _ hc))
    (le_maxQ _ _ (List.mem_map_of_mem _ hc))
  obtain ⟨i3, e3, -, -⟩ := cutBin_assigned
    (minQ ((sortedKeys ts).map (rankOf (sortedKeys ts) (monQ ts))))
    (maxQ ((sortedKeys ts).map (rankOf (sortedKeys ts) (monQ ts))))
    (rankOf (sortedKeys ts) (monQ ts) c)
    (minQ_le _ _ (List.mem_map_of_mem _ hc))
    (le_maxQ _ _ (List.mem_map_of_mem _ hc))
  simp only [rowOf]
  rw [e1, e2, e3]
  rfl

theorem rowOf_fields (ts : List Transaction) (ad : ℤ) (c : ℕ) (row : RFMRow)
    (h : rowOf ts ad c = some row) :
    row.customer_id = c ∧
    row.recency = ad - maxZ ((custTxns ts c).map Transaction.transaction_date) ∧
    row.frequency = (custTxns ts c).length ∧
    row.monetary = monQ ts c := by
  simp only [rowOf] at h
  split at h
  · injection h with h
    rw [← h]
    exact ⟨rfl, rfl, rfl, rfl⟩
  · exact Option.noConfusion h

theorem calculate_rfm_ne_nil (ts : List Transaction) (h : ts ≠ []) :
    calculate_rfm ts none
      = traverseOpt (rowOf ts (analysisDefault ts)) (sortedKeys ts) := by
  cases ts with
  | nil => exact absurd rfl h
  | cons a l => rfl

/-- C7 counterexample: for the single transaction of amount 1/250 the
produced `Monetary` value is 0 — not the amount sum 1/250, and not
positive — because the aggregated frame is rounded to 2 decimals. -/
theorem calculate_rfm_rounds_away_small_monetary :
    (calculate_rfm tinyAmountData none).map (fun rows => rows.map RFMRow.monetary)
        = some [0] ∧
    ((custTxns tinyAmountData 1).map Transaction.transaction_amount).sum = 1 / 250 ∧
    (0 : ℚ) < 1 / 250 := by
  with_unfolding_all decide

/-- C7 amended: on a nonempty transaction set with positive amounts,
`calculate_rfm` (with the default analysis date) returns one row per
distinct customer id, with recency = analysis date minus the customer's
latest date, frequency = the customer's transaction count, monetary =
the customer's amount sum rounded to 2 decimals; every row has
recency ≥ 0, frequency ≥ 1 and monetary ≥ 0, and monetary > 0 whenever
every amount is at least 0.01. -/
theorem calculate_rfm_metrics (ts : List Transaction) (hne : ts ≠ [])
    (hpos : ∀ t ∈ ts, 0 < t.transaction_amount) :
    ∃ rows, calculate_rfm ts none = some rows ∧
      (rows.map RFMRow.customer_id).Nodup ∧
      (∀ c, c ∈ rows.map RFMRow.customer_id ↔
            c ∈ ts.map Transaction.customer_id) ∧
      ∀ row ∈ rows,
        row.recency = analysisDefault ts
            - maxZ ((custTxns ts row.customer_id).map
                Transaction.transaction_date) ∧
        row.frequency = (custTxns ts row.customer_id).length ∧
        row.monetary = round2 (((custTxns ts row.customer_id).map
            Transaction.transaction_amount).sum) ∧
        0 ≤ row.recency ∧ 1 ≤ row.frequency ∧ 0 ≤ row.monetary ∧
        ((∀ t ∈ ts, 1 / 100 ≤ t.transaction_amount) → 0 < row.monetary) := by
  have hforall : ∀ c ∈ sortedKeys ts,
      (rowOf ts (analysisDefault ts) c).isSome = true :=
    fun c hc => rowOf_isSome ts _ c hc
  obtain ⟨rows, hrows⟩ := traverseOpt_isSome_of_forall (sortedKeys ts) hforall
  have hf2 := traverseOpt_some_forall₂ (sortedKeys ts) rows hrows
  have hmapcid : rows.map RFMRow.customer_id = sortedKeys ts :=
    forall₂_map_right_eq RFMRow.customer_id
      (fun a b hab => (rowOf_fields ts _ a b hab).1) hf2
  refine ⟨rows, ?_, ?_, ?_, ?_⟩
  · rw [calculate_rfm_ne_nil ts hne]
    exact hrows
  · rw [hmapcid]
    exact sortedKeys_nodup ts
  · intro c
    rw [hmapcid]
    exact mem_sortedKeys ts c
  · intro row hrow
    obtain ⟨c, hc, heq⟩ := forall₂_mem_right hf2 hrow
    obtain ⟨hcid', hrec, hfreq, hmon⟩ := rowOf_fields ts _ c row heq
    obtain ⟨t, ht, htc⟩ : ∃ t ∈ ts, t.customer_id = c := by
      obtain ⟨t, ht, htc⟩ := List.mem_map.mp ((mem_sortedKeys ts c).mp hc)
      exact ⟨t, ht, htc⟩
    have htmem : t ∈ custTxns ts c := List.mem_filter.mpr ⟨ht, by simp [htc]⟩
    have hnn : ∀ x ∈ (custTxns ts c).map Transaction.transaction_amount,
        0 ≤ x := by
      intro x hx
      obtain ⟨u, hu, hux⟩ := List.mem_map.mp hx
      exact hux ▸ le_of_lt (hpos u (List.mem_of_mem_filter hu))
    rw [hcid']
    refine ⟨hrec, hfreq, hmon, ?_, ?_, ?_, ?_⟩
    · rw [hrec]
      have hne' : (custTxns ts c).map Transaction.transaction_date ≠ [] := by
        intro h0
        have := List.mem_map_of_mem Transaction.transaction_date htmem
        rw [h0] at this
        exact absurd this (List.not_mem_nil _)
      obtain ⟨u, hu, hud⟩ := List.mem_map.mp (maxZ_mem _ hne')
      have hle : maxZ ((custTxns ts c).map Transaction.transaction_date)
          ≤ analysisDefault ts := by
        rw [← hud]
        exact le_maxZ _ _
          (List.mem_map_of_mem _ (List.mem_of_mem_filter hu))
      omega
    · rw [hfreq]
      exact List.length_pos.mpr (List.ne_nil_of_mem htmem)
    · rw [hmon]
      exact round2_nonneg _ (List.sum_nonneg hnn)
    · intro hge
      rw [hmon]
      apply round2_pos
      have hts : (1 : ℚ) / 100 ≤ t.transaction_amount := hge t ht
      have hsum := List.single_le_sum hnn _
        (List.mem_map_of_mem Transaction.transaction_amount htmem)
      linarith

/-- C7 witness: the amended Metric Calculator theorem instantiated on
the concrete two-customer transaction set `threeTxnData`. -/
theorem calculate_rfm_metrics_witness :
    ∃ rows, calculate_rfm threeTxnData none = some rows ∧
      (rows.map RFMRow.customer_id).Nodup ∧
      (∀ c, c ∈ rows.map RFMRow.customer_id ↔
            c ∈ threeTxnData.map Transaction.customer_id) ∧
      ∀ row ∈ rows,
        row.recency = analysisDefault threeTxnData
            - maxZ ((custTxns threeTxnData row.customer_id).map
                Transaction.transaction_date) ∧
        row.frequency = (custTxns threeTxnData row.customer_id).length ∧
        row.monetary = round2 (((custTxns threeTxnData row.customer_id).map
            Transaction.transaction_amount).sum) ∧
        0 ≤ row.recency ∧ 1 ≤ row.frequency ∧ 0 ≤ row.monetary ∧
        ((∀ t ∈ threeTxnData, 1 / 100 ≤ t.transaction_amount) →
          0 < row.monetary) :=
  calculate_rfm_metrics threeTxnData (by with_unfolding_all decide)
    (by with_unfolding_all decide)
